import Mathlib

set_option maxRecDepth 10000

namespace Simplemux

/-!
Shallow embedding of `simplemux.c` (version 1.4.7).

Bytes travelling on the wire are modelled as natural numbers; every byte
the program reads out of a buffer is reduced modulo 256, which is the value
of the corresponding unsigned 8-bit quantity (the C code reads `char`
buffers through `FromByte`, which masks to the low 8 bits).  Buffers are
`List Nat`, the clock is an explicit `Nat` argument in microseconds.
-/

/-- BUFSIZE macro, simplemux.c line 64. -/
def BUFSIZE : Nat := 2000

/-- MTU macro, simplemux.c line 65. -/
def MTU : Nat := 1500

/-- MAXPKTS macro, simplemux.c line 67: maximum number of packets to store. -/
def MAXPKTS : Nat := 100

/-- MAXTHRESHOLD macro, simplemux.c line 68: default size threshold. -/
def MAXTHRESHOLD : Nat := 1472

/-- MAXTIMEOUT macro, simplemux.c line 69: default (sentinel) value of the
timeout and of the period, in microseconds. -/
def MAXTIMEOUT : Nat := 100000000

/-- Startup computation of `limit_numpackets_tap` from the two `if`
statements at simplemux.c lines 507-510.  The arguments are the values of
`size_threshold`, `timeout`, `period` and `limit_numpackets_tap` after
option parsing.  Note that the second condition in the source compares
`timeout == MAXTIMEOUT` twice and never consults `period`; the embedding
reproduces that verbatim. -/
def setDefaultLimit (size_threshold timeout period limit_numpackets_tap : Nat) : Nat :=
  let l1 :=
    if ((size_threshold < MAXTHRESHOLD) ∨ (timeout < MAXTIMEOUT) ∨ (period < MAXTIMEOUT))
        ∧ limit_numpackets_tap = 0 then
      MAXPKTS
    else
      limit_numpackets_tap
  if ((size_threshold = MAXTHRESHOLD) ∧ (timeout = MAXTIMEOUT) ∧ (timeout = MAXTIMEOUT))
      ∧ l1 = 0 then
    1
  else
    l1

/-- Number of separator bytes the sender prepends to a packet of the given
size: the branch condition of simplemux.c lines 1055-1059 and 1083. -/
def sepLenOf (size_packet_read_from_tap : Nat) : Nat :=
  if size_packet_read_from_tap < 64 then 1 else 2

/-- Separator bytes written in front of a packet, simplemux.c lines
1083-1118: a packet shorter than 64 bytes gets the single byte
`length`; otherwise the first byte is `length / 256 + 64` (PFF bit set) and
the second byte is `length % 256`. -/
def encodeSep (size_packet_read_from_tap : Nat) : List Nat :=
  if size_packet_read_from_tap < 64 then
    [size_packet_read_from_tap]
  else
    [size_packet_read_from_tap / 256 + 64, size_packet_read_from_tap % 256]

/-- Byte sequence of a multiplexed bundle holding the given packets in FIFO
order: each packet is appended to `muxed_packet` behind its separator,
simplemux.c lines 1078-1126. -/
def serializeBundle : List (List Nat) → List Nat
  | [] => []
  | p :: ps => encodeSep p.length ++ p ++ serializeBundle ps

/-- Separator decoding of the demultiplexer, simplemux.c lines 737-780,
returning `(packet_length, bytes_consumed)`.  The first byte is inspected
through `FromByte`, so its unsigned 8-bit value decides the branches: bit 7
set means a bad separator (`none`); bit 6 clear means a one-byte separator
with `packet_length = byte % 128`; otherwise the separator is two bytes and
`packet_length = (byte % 64) * 256 + second_byte`. -/
def decodeSep : List Nat → Option (Nat × Nat)
  | [] => none
  | b0 :: rest =>
    if (b0 % 256).testBit 7 then
      none
    else if (b0 % 256).testBit 6 = false then
      some ((b0 % 256) % 128, 1)
    else
      match rest with
      | [] => none
      | b1 :: _ => some (((b0 % 256) % 64) * 256 + (b1 % 256), 2)

/-- Demultiplexing loop of simplemux.c lines 733-928 (compression disabled):
starting at the current position it decodes a separator, extracts
`packet_length` bytes and repeats until the position reaches
`nread_from_net`.  A separator whose first byte has bit 7 set sets
`position = nread_from_net` (the remaining bundle is dropped, line 742); a
declared length that overruns the datagram makes the final
`position > nread_from_net` check discard the packet and leave the loop
(lines 790-799); a two-byte separator whose second byte would lie past the
end of the datagram likewise ends with `position` beyond
`nread_from_net`, so the remainder is discarded whatever stale byte the
out-of-range read returns.  The `fuel` argument is a totalization device:
every iteration of the source loop consumes at least one byte, so running
the loop with `fuel = ` length of the remaining buffer is exact. -/
def demuxLoop : Nat → List Nat → List (List Nat)
  | 0, _ => []
  | _, [] => []
  | fuel + 1, b0 :: rest =>
    if (b0 % 256).testBit 7 then
      []
    else if (b0 % 256).testBit 6 = false then
      if (b0 % 256) % 128 ≤ rest.length then
        rest.take ((b0 % 256) % 128) :: demuxLoop fuel (rest.drop ((b0 % 256) % 128))
      else
        []
    else
      match rest with
      | [] => []
      | b1 :: rest2 =>
        if ((b0 % 256) % 64) * 256 + (b1 % 256) ≤ rest2.length then
          rest2.take (((b0 % 256) % 64) * 256 + (b1 % 256)) ::
            demuxLoop fuel (rest2.drop (((b0 % 256) % 64) * 256 + (b1 % 256)))
        else
          []

/-- Packets extracted from one received datagram by the demultiplexer,
simplemux.c lines 733-928. -/
def demux (buffer_from_net : List Nat) : List (List Nat) :=
  demuxLoop buffer_from_net.length buffer_from_net

/-! ### Basic lemmas about the codec -/

theorem testBit_seven_false {x : Nat} (h : x < 128) : Nat.testBit x 7 = false := by
  rw [Nat.testBit_to_div_mod]
  have h2 : (2 : Nat) ^ 7 = 128 := by norm_num
  rw [h2]
  have hx : x / 128 = 0 := Nat.div_eq_of_lt h
  simp [hx]

theorem testBit_six_false {x : Nat} (h : x < 64) : Nat.testBit x 6 = false := by
  rw [Nat.testBit_to_div_mod]
  have h2 : (2 : Nat) ^ 6 = 64 := by norm_num
  rw [h2]
  have hx : x / 64 = 0 := Nat.div_eq_of_lt h
  simp [hx]

theorem testBit_six_true {x : Nat} (h1 : 64 ≤ x) (h2 : x < 128) : Nat.testBit x 6 = true := by
  rw [Nat.testBit_to_div_mod]
  have h64 : (2 : Nat) ^ 6 = 64 := by norm_num
  rw [h64]
  have hx : x / 64 = 1 := by omega
  simp [hx]

theorem encodeSep_length (l : Nat) : (encodeSep l).length = sepLenOf l := by
  by_cases h : l < 64 <;> simp [encodeSep, sepLenOf, h]

theorem demuxLoop_fuel :
    ∀ (f1 f2 : Nat) (buf : List Nat),
      buf.length ≤ f1 → buf.length ≤ f2 → demuxLoop f1 buf = demuxLoop f2 buf := by
  intro f1
  induction f1 with
  | zero =>
    intro f2 buf h1 _
    have hb : buf = [] := List.length_eq_zero.mp (Nat.le_zero.mp h1)
    subst hb
    cases f2 <;> rfl
  | succ f ih =>
    intro f2 buf h1 h2
    cases buf with
    | nil => cases f2 <;> rfl
    | cons b0 rest =>
      cases f2 with
      | zero => simp at h2
      | succ f2h =>
        simp only [demuxLoop]
        cases hb7 : (b0 % 256).testBit 7 with
        | true => simp [hb7]
        | false =>
        cases hb6 : (b0 % 256).testBit 6 with
        | false =>
          by_cases hlen : (b0 % 256) % 128 ≤ rest.length
          · have hd : (rest.drop ((b0 % 256) % 128)).length ≤ f := by
              simp only [List.length_drop]
              simp only [List.length_cons] at h1
              omega
            have hd2 : (rest.drop ((b0 % 256) % 128)).length ≤ f2h := by
              simp only [List.length_drop]
              simp only [List.length_cons] at h2
              omega
            simp only [hlen, if_true, if_pos rfl]
            rw [ih _ _ hd hd2]
          · simp [hlen]
        | true =>
          cases rest with
          | nil => rfl
          | cons b1 rest2 =>
            by_cases hlen : ((b0 % 256) % 64) * 256 + (b1 % 256) ≤ rest2.length
            · have hd : (rest2.drop (((b0 % 256) % 64) * 256 + (b1 % 256))).length ≤ f := by
                simp only [List.length_drop]
                simp only [List.length_cons] at h1
                omega
              have hd2 : (rest2.drop (((b0 % 256) % 64) * 256 + (b1 % 256))).length ≤ f2h := by
                simp only [List.length_drop]
                simp only [List.length_cons] at h2
                omega
              simp only [Bool.true_eq_false, if_false, hlen, if_true]
              rw [ih _ _ hd hd2]
            · simp [hlen]

theorem demux_nil : demux [] = [] := rfl

theorem demux_cons (b0 : Nat) (rest : List Nat) :
    demux (b0 :: rest) =
      if (b0 % 256).testBit 7 then
        []
      else if (b0 % 256).testBit 6 = false then
        (if (b0 % 256) % 128 ≤ rest.length then
          rest.take ((b0 % 256) % 128) :: demux (rest.drop ((b0 % 256) % 128))
        else
          [])
      else
        (match rest with
         | [] => []
         | b1 :: rest2 =>
           if ((b0 % 256) % 64) * 256 + (b1 % 256) ≤ rest2.length then
             rest2.take (((b0 % 256) % 64) * 256 + (b1 % 256)) ::
               demux (rest2.drop (((b0 % 256) % 64) * 256 + (b1 % 256)))
           else
             []) := by
  show demuxLoop (rest.length + 1) (b0 :: rest) = _
  simp only [demuxLoop]
  cases hb7 : (b0 % 256).testBit 7 with
  | true => simp [hb7]
  | false =>
  cases hb6 : (b0 % 256).testBit 6 with
  | false =>
    by_cases hlen : (b0 % 256) % 128 ≤ rest.length
    · have hd : (rest.drop ((b0 % 256) % 128)).length ≤ rest.length := by
        simp only [List.length_drop]; omega
      simp only [hlen, if_true, if_pos rfl]
      rw [demuxLoop_fuel rest.length (rest.drop ((b0 % 256) % 128)).length _ hd le_rfl]
      rfl
    · simp [hlen]
  | true =>
    cases rest with
    | nil => rfl
    | cons b1 rest2 =>
      by_cases hlen : ((b0 % 256) % 64) * 256 + (b1 % 256) ≤ rest2.length
      · have hd : (rest2.drop (((b0 % 256) % 64) * 256 + (b1 % 256))).length ≤
            (b1 :: rest2).length := by
          simp only [List.length_drop, List.length_cons]; omega
        simp only [Bool.true_eq_false, if_false, hlen, if_true]
        rw [demuxLoop_fuel (b1 :: rest2).length
              (rest2.drop (((b0 % 256) % 64) * 256 + (b1 % 256))).length _ hd le_rfl]
        rfl
      · simp [hlen]

/-! ### Round-trip of the separator framing -/

theorem demux_packet (p rest : List Nat) (h : p.length ≤ 16383) :
    demux (encodeSep p.length ++ p ++ rest) = p :: demux rest := by
  by_cases h64 : p.length < 64
  · have he : encodeSep p.length = [p.length] := by simp [encodeSep, h64]
    rw [he]
    have hshape : [p.length] ++ p ++ rest = p.length :: (p ++ rest) := by simp
    rw [hshape, demux_cons]
    have hm : p.length % 256 = p.length := Nat.mod_eq_of_lt (by omega)
    have hm2 : p.length % 128 = p.length := Nat.mod_eq_of_lt (by omega)
    rw [hm, testBit_seven_false (by omega), testBit_six_false h64, hm2]
    have hle : p.length ≤ (p ++ rest).length := by simp
    simp only [if_pos rfl, hle, if_true]
    rw [List.take_left, List.drop_left]
    simp
  · have he : encodeSep p.length = [p.length / 256 + 64, p.length % 256] := by
      simp [encodeSep, h64]
    rw [he]
    have hshape : [p.length / 256 + 64, p.length % 256] ++ p ++ rest
        = (p.length / 256 + 64) :: (p.length % 256) :: (p ++ rest) := by simp
    rw [hshape, demux_cons]
    have hb0 : p.length / 256 + 64 < 128 := by omega
    have hm : (p.length / 256 + 64) % 256 = p.length / 256 + 64 := Nat.mod_eq_of_lt (by omega)
    rw [hm, testBit_seven_false hb0, testBit_six_true (by omega) hb0]
    have hlen : (p.length / 256 + 64) % 64 * 256 + p.length % 256 % 256 = p.length := by
      omega
    simp only [Bool.true_eq_false, if_false]
    rw [hlen]
    have hle : p.length ≤ (p ++ rest).length := by simp
    simp only [hle, if_true]
    rw [List.take_left, List.drop_left]
    simp

theorem demux_serializeBundle (ps : List (List Nat)) (rest : List Nat)
    (h : ∀ p ∈ ps, p.length ≤ 16383) :
    demux (serializeBundle ps ++ rest) = ps ++ demux rest := by
  induction ps with
  | nil => simp [serializeBundle]
  | cons p ps ih =>
    have hp : p.length ≤ 16383 := h p (by simp)
    have hps : ∀ q ∈ ps, q.length ≤ 16383 := fun q hq => h q (by simp [hq])
    have hshape : serializeBundle (p :: ps) ++ rest
        = encodeSep p.length ++ p ++ (serializeBundle ps ++ rest) := by
      simp [serializeBundle]
    rw [hshape, demux_packet p _ hp, ih hps]
    simp

theorem demux_badSeparator (b0 : Nat) (rest : List Nat) (h : (b0 % 256).testBit 7 = true) :
    demux (b0 :: rest) = [] := by
  rw [demux_cons, h]
  simp

theorem demux_truncated (n : Nat) (q : List Nat) (h16 : n ≤ 16383) (hq : q.length < n) :
    demux (encodeSep n ++ q) = [] := by
  by_cases h64 : n < 64
  · have he : encodeSep n = [n] := by simp [encodeSep, h64]
    rw [he]
    have hshape : [n] ++ q = n :: q := by simp
    rw [hshape, demux_cons]
    have hm : n % 256 = n := Nat.mod_eq_of_lt (by omega)
    have hm2 : n % 128 = n := Nat.mod_eq_of_lt (by omega)
    rw [hm, testBit_seven_false (by omega), testBit_six_false h64, hm2]
    have hgt : ¬ (n ≤ q.length) := by omega
    simp only [if_pos rfl, hgt, if_false]
    simp
  · have he : encodeSep n = [n / 256 + 64, n % 256] := by simp [encodeSep, h64]
    rw [he]
    have hshape : [n / 256 + 64, n % 256] ++ q = (n / 256 + 64) :: (n % 256) :: q := by simp
    rw [hshape, demux_cons]
    have hb0 : n / 256 + 64 < 128 := by omega
    have hm : (n / 256 + 64) % 256 = n / 256 + 64 := Nat.mod_eq_of_lt (by omega)
    rw [hm, testBit_seven_false hb0, testBit_six_true (by omega) hb0]
    have hlen : (n / 256 + 64) % 64 * 256 + n % 256 % 256 = n := by omega
    simp only [Bool.true_eq_false, if_false]
    have hgt : ¬ (n ≤ q.length) := by omega
    rw [hlen]
    simp only [hgt, if_false]
    simp

/-! ### Receive-path post-processing and routing -/

/-- Post-processing of one demultiplexed packet, simplemux.c lines 800-925.
`decomp` abstracts `rohc_decompress3`: `some ip` is `ROHC_STATUS_OK` with
`ip` the decompressed bytes (`[]` when `rohc_buf_is_empty` holds, the
feedback-only / non-final-segment case), `none` is any failure status.  The
result is the byte string passed to `cwrite` for this packet, or `none`
when no write happens.  Note that in the source the write at line 918 is
guarded only by `status == ROHC_STATUS_OK`, so in the empty case the stale
`demuxed_packet` and `packet_length` (the still-compressed bytes) are
written. -/
def processPayload (compress_headers : Bool) (decomp : List Nat → Option (List Nat))
    (demuxed_packet : List Nat) : Option (List Nat) :=
  if compress_headers then
    match decomp demuxed_packet with
    | some ip_packet_d =>
      if ip_packet_d.isEmpty then
        some demuxed_packet
      else
        some ip_packet_d
    | none => none
  else
    some demuxed_packet

/-- Byte strings written to the tun/tap interface while demultiplexing one
datagram that arrived from the multiplexing port, simplemux.c lines
733-928. -/
def demuxWrites (compress_headers : Bool) (decomp : List Nat → Option (List Nat))
    (buffer_from_net : List Nat) : List (List Nat) :=
  (demux buffer_from_net).filterMap (processPayload compress_headers decomp)

/-- Handling of one datagram received on the UDP socket, simplemux.c lines
723-940: if the source port equals the configured port the datagram is
demultiplexed, otherwise it is written unmodified to the tun/tap
interface.  The result is the list of byte strings written to the
interface. -/
def handleNetDatagram (compress_headers : Bool) (decomp : List Nat → Option (List Nat))
    (port src_port : Nat) (buffer_from_net : List Nat) : List (List Nat) :=
  if port = src_port then
    demuxWrites compress_headers decomp buffer_from_net
  else
    [buffer_from_net]

/-! ### Send-path accumulator state machine -/

/-- Mutable send-path state of the main loop: the bytes accumulated in
`muxed_packet` (whose length is `size_muxed_packet`),
`num_pkts_stored_from_tap` and `time_last_sent_in_microsec`,
simplemux.c lines 345, 362-365. -/
structure MuxState where
  muxed_packet : List Nat
  num_pkts_stored_from_tap : Nat
  time_last_sent_in_microsec : Nat
  deriving DecidableEq, Repr

/-- Triggering parameters fixed after startup, simplemux.c lines 355-359. -/
structure Config where
  limit_numpackets_tap : Nat
  size_threshold : Nat
  timeout : Nat
  deriving DecidableEq, Repr

/-- MTU clamp at the head of the TAP-to-NET branch, simplemux.c lines
1055-1075: if adding the arrived packet would push the bundle past the
MTU, the currently stored bundle is sent first and the counters are reset;
`time_last_sent_in_microsec` is not touched on this path.  Returns the new
state and the list of datagrams sent. -/
def mtuCheck (s : MuxState) (size_packet_read_from_tap : Nat) :
    MuxState × List (List Nat) :=
  if s.muxed_packet.length + sepLenOf size_packet_read_from_tap
      + size_packet_read_from_tap > MTU then
    (⟨[], 0, s.time_last_sent_in_microsec⟩, [s.muxed_packet])
  else
    (s, [])

/-- Accumulation of the arrived packet behind its separator, simplemux.c
lines 1078-1126. -/
def appendPacket (s : MuxState) (packet_read_from_tap : List Nat) : MuxState :=
  ⟨s.muxed_packet ++ encodeSep packet_read_from_tap.length ++ packet_read_from_tap,
   s.num_pkts_stored_from_tap + 1,
   s.time_last_sent_in_microsec⟩

/-- Trigger evaluation after accumulating a packet, simplemux.c lines
1129-1165: the bundle is sent when the packet count equals
`limit_numpackets_tap`, or the stored size exceeds `size_threshold`, or
the time since the last sending exceeds `timeout`; on sending, both
counters reset and `time_last_sent_in_microsec` is set to the current
time. -/
def triggerCheck (cfg : Config) (s : MuxState) (now : Nat) :
    MuxState × List (List Nat) :=
  if s.num_pkts_stored_from_tap = cfg.limit_numpackets_tap
      ∨ s.muxed_packet.length > cfg.size_threshold
      ∨ now - s.time_last_sent_in_microsec > cfg.timeout then
    (⟨[], 0, now⟩, [s.muxed_packet])
  else
    (s, [])

/-- Whole TAP-to-NET branch for one packet read from the tun/tap interface
(compression disabled), simplemux.c lines 946-1166: MTU clamp, then
accumulation, then trigger evaluation. -/
def offer (cfg : Config) (s : MuxState) (packet_read_from_tap : List Nat) (now : Nat) :
    MuxState × List (List Nat) :=
  let r1 := mtuCheck s packet_read_from_tap.length
  let s2 := appendPacket r1.1 packet_read_from_tap
  let r2 := triggerCheck cfg s2 now
  (r2.1, r1.2 ++ r2.2)

/-- Period-expiry branch of the main loop, simplemux.c lines 1172-1198: if
packets are stored they are sent and the counters reset; in every case
`time_last_sent_in_microsec` is set to the current time. -/
def tick (s : MuxState) (now : Nat) : MuxState × List (List Nat) :=
  if s.num_pkts_stored_from_tap > 0 then
    (⟨[], 0, now⟩, [s.muxed_packet])
  else
    (⟨s.muxed_packet, s.num_pkts_stored_from_tap, now⟩, [])

/-- Send-path stimuli of the event loop: a packet arriving from the tun/tap
interface at a given time, or the period expiring. -/
inductive Event where
  | pkt (packet_read_from_tap : List Nat) (now : Nat)
  | timer (now : Nat)
  deriving DecidableEq, Repr

/-- One wakeup of the main loop, restricted to the send-path state. -/
def step (cfg : Config) (s : MuxState) : Event → MuxState × List (List Nat)
  | Event.pkt p now => offer cfg s p now
  | Event.timer now => tick s now

/-- Run of the main loop over a list of events, collecting every datagram
handed to `sendto` in order. -/
def run (cfg : Config) (s : MuxState) : List Event → MuxState × List (List Nat)
  | [] => (s, [])
  | e :: es =>
    let r1 := step cfg s e
    let r2 := run cfg r1.1 es
    (r2.1, r1.2 ++ r2.2)

/-- A packet small enough that, by itself, it fits inside an MTU-sized
bundle together with its separator; timer events carry no packet. -/
def payloadFits : Event → Prop
  | Event.pkt p _ => sepLenOf p.length + p.length ≤ MTU
  | Event.timer _ => True

instance instDecidablePayloadFits : DecidablePred payloadFits := fun e =>
  match e with
  | Event.pkt p _ => inferInstanceAs (Decidable (sepLenOf p.length + p.length ≤ MTU))
  | Event.timer _ => inferInstanceAs (Decidable True)

/-! ### Access-exact embedding of the demultiplexer's buffer reads -/

/-- Copy loop of simplemux.c lines 784-787: `packet_length` bytes are read
from `buffer_from_net` starting at `position` and copied into
`demuxed_packet`, with no bounds check before the reads (the
`position > nread_from_net` check only runs at line 790, after the copy).
A read at or beyond the end of the received data returns `none`. -/
def copyPacket (buffer_from_net : List Nat) (position : Nat) :
    Nat → Option (List Nat × Nat)
  | 0 => some ([], position)
  | packet_length + 1 =>
    match buffer_from_net.get? position with
    | none => none
    | some b =>
      match copyPacket buffer_from_net (position + 1) packet_length with
      | none => none
      | some (tl, position2) => some (b :: tl, position2)

/-- One iteration of the demultiplexing loop, simplemux.c lines 736-799,
with every access to `buffer_from_net` performed through `List.get?` in
source order: the first separator byte, then (for a two-byte separator)
the byte at `position + 1`, then the copy of `packet_length` bytes.
`none` means the source would have read at or beyond `nread_from_net`;
`some (none, pos)` is the bad-separator exit; `some (some pkt, pos)` is a
completed iteration. -/
def demuxStepTotal (buffer_from_net : List Nat) (position : Nat) :
    Option (Option (List Nat) × Nat) :=
  match buffer_from_net.get? position with
  | none => none
  | some b0 =>
    if (b0 % 256).testBit 7 then
      some (none, buffer_from_net.length)
    else if (b0 % 256).testBit 6 = false then
      match copyPacket buffer_from_net (position + 1) ((b0 % 256) % 128) with
      | none => none
      | some (pkt, position2) => some (some pkt, position2)
    else
      match buffer_from_net.get? (position + 1) with
      | none => none
      | some b1 =>
        match copyPacket buffer_from_net (position + 2)
            (((b0 % 256) % 64) * 256 + (b1 % 256)) with
        | none => none
        | some (pkt, position2) => some (some pkt, position2)

/-! ### Helper lemmas about the send-path machine -/

theorem run_cons (cfg : Config) (s : MuxState) (e : Event) (es : List Event) :
    run cfg s (e :: es)
      = ((run cfg (step cfg s e).1 es).1,
         (step cfg s e).2 ++ (run cfg (step cfg s e).1 es).2) := rfl

theorem offer_eq (cfg : Config) (s : MuxState) (p : List Nat) (now : Nat) :
    offer cfg s p now
      = ((triggerCheck cfg (appendPacket (mtuCheck s p.length).1 p) now).1,
         (mtuCheck s p.length).2
           ++ (triggerCheck cfg (appendPacket (mtuCheck s p.length).1 p) now).2) := rfl

theorem run_count_trigger (T t0 : Nat) :
    ∀ (qs : List (List Nat)) (B : List Nat) (n k : Nat),
      qs ≠ [] →
      n + qs.length = k →
      B.length + (serializeBundle qs).length ≤ MTU →
      run ⟨k, MTU, T⟩ ⟨B, n, t0⟩ (qs.map (fun p => Event.pkt p t0))
        = (⟨[], 0, t0⟩, [B ++ serializeBundle qs]) := by
  intro qs
  induction qs with
  | nil => intro B n k hne _ _; exact absurd rfl hne
  | cons q qs ih =>
    intro B n k hne hk hfit
    have hser : serializeBundle (q :: qs) = encodeSep q.length ++ q ++ serializeBundle qs := rfl
    have hserlen : (serializeBundle (q :: qs)).length
        = sepLenOf q.length + q.length + (serializeBundle qs).length := by
      rw [hser]
      simp only [List.length_append, encodeSep_length]
    have hcond : ¬ (B.length + sepLenOf q.length + q.length > MTU) := by omega
    have hm : mtuCheck ⟨B, n, t0⟩ q.length = (⟨B, n, t0⟩, []) := by
      simp [mtuCheck, hcond]
    have happ : appendPacket ⟨B, n, t0⟩ q
        = ⟨B ++ encodeSep q.length ++ q, n + 1, t0⟩ := rfl
    have hlen2 : (B ++ encodeSep q.length ++ q).length
        = B.length + sepLenOf q.length + q.length := by
      simp only [List.length_append, encodeSep_length]
    cases qs with
    | nil =>
      have hkk : n + 1 = k := by simpa using hk
      have ht : triggerCheck ⟨k, MTU, T⟩ ⟨B ++ encodeSep q.length ++ q, n + 1, t0⟩ t0
          = (⟨[], 0, t0⟩, [B ++ encodeSep q.length ++ q]) := by
        simp [triggerCheck, hkk]
      have hstep : step ⟨k, MTU, T⟩ ⟨B, n, t0⟩ (Event.pkt q t0)
          = (⟨[], 0, t0⟩, [B ++ encodeSep q.length ++ q]) := by
        simp only [step, offer_eq, hm, happ, ht]
        simp
      rw [List.map_cons, List.map_nil, run_cons, hstep]
      simp [run, serializeBundle]
    | cons q2 qs2 =>
      have hkk : ¬ (n + 1 = k) := by
        simp only [List.length_cons] at hk
        omega
      have hno : ¬ ((n + 1 = k)
          ∨ ((B ++ encodeSep q.length ++ q).length > MTU)
          ∨ (t0 - t0 > T)) := by
        intro hcase
        rcases hcase with h | h | h
        · exact hkk h
        · omega
        · omega
      have ht : triggerCheck ⟨k, MTU, T⟩ ⟨B ++ encodeSep q.length ++ q, n + 1, t0⟩ t0
          = (⟨B ++ encodeSep q.length ++ q, n + 1, t0⟩, []) := by
        simp only [triggerCheck]
        rw [if_neg]
        exact hno
      have hk2 : (n + 1) + (q2 :: qs2).length = k := by
        simp only [List.length_cons] at hk ⊢
        omega
      have hfit2 : (B ++ encodeSep q.length ++ q).length
          + (serializeBundle (q2 :: qs2)).length ≤ MTU := by
        omega
      have hrec := ih (B ++ encodeSep q.length ++ q) (n + 1) k (by simp) hk2 hfit2
      have hstep : step ⟨k, MTU, T⟩ ⟨B, n, t0⟩ (Event.pkt q t0)
          = (⟨B ++ encodeSep q.length ++ q, n + 1, t0⟩, []) := by
        simp only [step, offer_eq, hm, happ, ht]
        simp
      rw [List.map_cons, run_cons, hstep]
      simp only [hrec]
      simp [serializeBundle]

theorem triggerCheck_bound (cfg : Config) (s : MuxState) (now : Nat)
    (hs : s.muxed_packet.length ≤ MTU) :
    (∀ b ∈ (triggerCheck cfg s now).2, b.length ≤ MTU)
    ∧ (triggerCheck cfg s now).1.muxed_packet.length ≤ MTU := by
  simp only [triggerCheck]
  split
  · exact ⟨by simpa using hs, by simp⟩
  · exact ⟨by simp, hs⟩

theorem step_bundle_bound (cfg : Config) (s : MuxState) (e : Event)
    (hs : s.muxed_packet.length ≤ MTU) (he : payloadFits e) :
    (∀ b ∈ (step cfg s e).2, b.length ≤ MTU)
    ∧ (step cfg s e).1.muxed_packet.length ≤ MTU := by
  cases e with
  | timer now =>
    simp only [step, tick]
    split
    · exact ⟨by simpa using hs, by simp⟩
    · exact ⟨by simp, hs⟩
  | pkt p now =>
    simp only [payloadFits] at he
    have happ : (appendPacket (mtuCheck s p.length).1 p).muxed_packet.length ≤ MTU := by
      by_cases hc : s.muxed_packet.length + sepLenOf p.length + p.length > MTU
      · simp only [mtuCheck, hc, if_true, appendPacket, List.length_append, encodeSep_length]
        simpa using he
      · simp only [mtuCheck, hc, if_false, appendPacket, List.length_append, encodeSep_length]
        omega
    have hmout : ∀ b ∈ (mtuCheck s p.length).2, b.length ≤ MTU := by
      by_cases hc : s.muxed_packet.length + sepLenOf p.length + p.length > MTU
      · simp only [mtuCheck, hc, if_true]
        simpa using hs
      · simp [mtuCheck, hc]
    have htb := triggerCheck_bound cfg (appendPacket (mtuCheck s p.length).1 p) now happ
    constructor
    · intro b hb
      simp only [step, offer_eq] at hb
      rcases List.mem_append.mp hb with h | h
      · exact hmout b h
      · exact htb.1 b h
    · simpa only [step, offer_eq] using htb.2

theorem run_bundle_bound (cfg : Config) :
    ∀ (events : List Event) (s : MuxState),
      s.muxed_packet.length ≤ MTU →
      (∀ e ∈ events, payloadFits e) →
      ∀ b ∈ (run cfg s events).2, b.length ≤ MTU := by
  intro events
  induction events with
  | nil =>
    intro s _ _ b hb
    simp [run] at hb
  | cons e es ih =>
    intro s hs he b hb
    have h1 := step_bundle_bound cfg s e hs (he e (by simp))
    rw [run_cons] at hb
    rcases List.mem_append.mp hb with h | h
    · exact h1.1 b h
    · exact ih (step cfg s e).1 h1.2 (fun x hx => he x (by simp [hx])) b h

theorem filterMap_psome (l : List (List Nat)) :
    l.filterMap (fun pkt => some pkt) = l := by
  induction l with
  | nil => rfl
  | cons x xs ih => simp [List.filterMap_cons, ih]

/-! ### Claim theorems -/

/-- C1: with compression disabled, a sequence of payloads accepted by the
TAP-to-NET branch (each with length in `[1, 16383]`, jointly fitting in
one bundle) and emitted together by one flush (here: the count trigger
firing on the last payload) produces exactly the bundle
`serializeBundle ps`, and demultiplexing that bundle recovers the payloads
byte for byte in the FIFO order in which they were accepted. -/
theorem C1_bundle_roundtrip (ps : List (List Nat)) (t0 T : Nat)
    (hne : ps ≠ [])
    (hlen : ∀ p ∈ ps, 1 ≤ p.length ∧ p.length ≤ 16383)
    (hfit : (serializeBundle ps).length ≤ MTU) :
    (run ⟨ps.length, MTU, T⟩ ⟨[], 0, t0⟩ (ps.map (fun p => Event.pkt p t0))).2
        = [serializeBundle ps]
    ∧ demux (serializeBundle ps) = ps := by
  constructor
  · have h := run_count_trigger T t0 ps [] 0 ps.length hne (by simp) (by simpa using hfit)
    rw [h]
    simp
  · have h := demux_serializeBundle ps [] (fun p hp => (hlen p hp).2)
    simpa [demux_nil] using h

/-- C1 witness: the concrete payload sequence `[[1, 2], [3]]`. -/
theorem C1_bundle_roundtrip_witness :
    (run ⟨[[1, 2], [3]].length, MTU, 777⟩ ⟨[], 0, 5⟩
        ([[1, 2], [3]].map (fun p => Event.pkt p 5))).2
      = [serializeBundle [[1, 2], [3]]]
    ∧ demux (serializeBundle [[1, 2], [3]]) = [[1, 2], [3]] :=
  C1_bundle_roundtrip [[1, 2], [3]] 5 777 (by decide) (by decide) (by decide)

/-- C2: for every length in `[1, 16383]`, decoding the encoded separator
returns the same length, consuming 1 byte when `length < 64` and 2 bytes
otherwise, and the one-byte form is used if and only if `length < 64`. -/
theorem C2_separator_roundtrip (len : Nat) (h1 : 1 ≤ len) (h2 : len ≤ 16383) :
    decodeSep (encodeSep len) = some (len, if len < 64 then 1 else 2)
    ∧ ((encodeSep len).length = 1 ↔ len < 64) := by
  by_cases h64 : len < 64
  · refine ⟨?_, by simp [encodeSep, h64]⟩
    simp only [encodeSep, h64, if_true, decodeSep]
    have hm : len % 256 = len := Nat.mod_eq_of_lt (by omega)
    rw [hm, testBit_seven_false (by omega), testBit_six_false h64]
    have hm2 : len % 128 = len := Nat.mod_eq_of_lt (by omega)
    simp [hm2, h64]
  · refine ⟨?_, by simp [encodeSep, h64]⟩
    simp only [encodeSep, h64, if_false, decodeSep]
    have hb0 : len / 256 + 64 < 128 := by omega
    have hm : (len / 256 + 64) % 256 = len / 256 + 64 := Nat.mod_eq_of_lt (by omega)
    rw [hm, testBit_seven_false hb0, testBit_six_true (by omega) hb0]
    simp [h64]
    omega

/-- C2 witness: length 100 round-trips through the two-byte form. -/
theorem C2_separator_roundtrip_witness :
    decodeSep (encodeSep 100) = some (100, if (100 : Nat) < 64 then 1 else 2)
    ∧ ((encodeSep (100 : Nat)).length = 1 ↔ (100 : Nat) < 64) :=
  C2_separator_roundtrip 100 (by decide) (by decide)

/-- C3 counterexample: the claim "every flushed bundle is at most the MTU"
is false as stated.  Offering a single 1500-byte payload to an empty
accumulator (default configuration, `n_max = 1`) makes the source send a
0-byte datagram from the MTU-clamp branch and then a 1502-byte bundle from
the count trigger, and `1502 > MTU`. -/
theorem C3_counterexample :
    ((offer ⟨1, MAXTHRESHOLD, MAXTIMEOUT⟩ ⟨[], 0, 0⟩
        (List.replicate 1500 7) 0).2.map List.length) = [0, 1502]
    ∧ MTU < 1502 := by decide

/-- C3 (amended): provided every payload accepted by the TAP-to-NET branch
fits, together with its separator, inside an MTU-sized bundle on its own,
every datagram handed to `sendto` during any run of the main loop —
whatever the flush reason — has length at most the MTU. -/
theorem C3_bundle_le_mtu (cfg : Config) (t0 : Nat) (events : List Event)
    (h : ∀ e ∈ events, payloadFits e) :
    ∀ b ∈ (run cfg ⟨[], 0, t0⟩ events).2, b.length ≤ MTU :=
  run_bundle_bound cfg events ⟨[], 0, t0⟩ (by simp) h

/-- C3 witness: a one-packet run whose flushed bundle `[1, 5]` obeys the
bound. -/
theorem C3_bundle_le_mtu_witness :
    payloadFits (Event.pkt [5] 9) ∧ ([1, 5] : List Nat).length ≤ MTU :=
  ⟨by decide,
   C3_bundle_le_mtu ⟨1, MAXTHRESHOLD, MAXTIMEOUT⟩ 0 [Event.pkt [5] 9]
     (by decide) [1, 5] (by decide)⟩

/-- C4 counterexample: the claim "after every flush
`last_flush_time == now`" is false for the MTU-clamp flush.  Starting from
an empty accumulator at time 0, a 1400-byte payload at time 10 is stored;
a further 200-byte payload at time 20 triggers the MTU-clamp flush (a
1402-byte datagram is sent), yet `time_last_sent_in_microsec` stays 0
instead of becoming 20. -/
theorem C4_counterexample :
    ((offer ⟨100, 5000, MAXTIMEOUT⟩
        ((offer ⟨100, 5000, MAXTIMEOUT⟩ ⟨[], 0, 0⟩ (List.replicate 1400 7) 10).1)
        (List.replicate 200 7) 20).2.map List.length = [1402])
    ∧ (offer ⟨100, 5000, MAXTIMEOUT⟩
        ((offer ⟨100, 5000, MAXTIMEOUT⟩ ⟨[], 0, 0⟩ (List.replicate 1400 7) 10).1)
        (List.replicate 200 7) 20).1.time_last_sent_in_microsec ≠ 20 := by decide

/-- C4 (amended): after a count/size/timeout flush and after a period
flush the accumulator satisfies `pending_count = 0`, `pending_bytes = 0`
and `last_flush_time = now`, and the period branch always sets
`last_flush_time := now`; after an MTU-clamp flush the counters are 0 but
`last_flush_time` is left unchanged. -/
theorem C4_flush_reset (cfg : Config) (s : MuxState) (size_packet_read_from_tap now : Nat) :
    ((mtuCheck s size_packet_read_from_tap).2 ≠ [] →
      (mtuCheck s size_packet_read_from_tap).1 = ⟨[], 0, s.time_last_sent_in_microsec⟩)
    ∧ ((triggerCheck cfg s now).2 ≠ [] → (triggerCheck cfg s now).1 = ⟨[], 0, now⟩)
    ∧ ((tick s now).2 ≠ [] → (tick s now).1 = ⟨[], 0, now⟩)
    ∧ (tick s now).1.time_last_sent_in_microsec = now := by
  refine ⟨?_, ?_, ?_, ?_⟩
  · simp only [mtuCheck]; split <;> simp
  · simp only [triggerCheck]; split <;> simp
  · simp only [tick]; split <;> simp
  · simp only [tick]; split <;> simp

/-- C4 witness: concrete states at which each flush site fires. -/
theorem C4_flush_reset_witness :
    (mtuCheck ⟨[1, 2], 1, 3⟩ 1500).1 = ⟨[], 0, 3⟩
    ∧ (triggerCheck ⟨1, 1472, 100000000⟩ ⟨[1, 5], 1, 0⟩ 9).1 = ⟨[], 0, 9⟩
    ∧ (tick ⟨[1, 5], 1, 0⟩ 9).1 = ⟨[], 0, 9⟩ :=
  ⟨(C4_flush_reset ⟨1, 1472, 100000000⟩ ⟨[1, 2], 1, 3⟩ 1500 9).1 (by decide),
   (C4_flush_reset ⟨1, 1472, 100000000⟩ ⟨[1, 5], 1, 0⟩ 1500 9).2.1 (by decide),
   (C4_flush_reset ⟨1, 1472, 100000000⟩ ⟨[1, 5], 1, 0⟩ 1500 9).2.2.1 (by decide)⟩

/-- C5 (code divergence): a payload offered to an empty accumulator whose
predicted serialized size (1502) exceeds the MTU is not dropped by the
source: the MTU-clamp branch sends a zero-byte datagram, and the payload
is appended anyway, leaving `pending_count = 1` and 1502 pending bytes. -/
theorem C5_oversize_payload_not_dropped :
    (offer ⟨100, 5000, MAXTIMEOUT⟩ ⟨[], 0, 0⟩
        (List.replicate 1500 7) 0).1.num_pkts_stored_from_tap = 1
    ∧ (offer ⟨100, 5000, MAXTIMEOUT⟩ ⟨[], 0, 0⟩
        (List.replicate 1500 7) 0).1.muxed_packet.length = 1502
    ∧ MTU < 1502
    ∧ (offer ⟨100, 5000, MAXTIMEOUT⟩ ⟨[], 0, 0⟩
        (List.replicate 1500 7) 0).2 = [[]] := by decide

/-- C6 (code divergence): with compression enabled, when decompression
succeeds with an empty output (feedback-only or non-final segment) the
source still writes to the virtual interface — the write at line 918 is
guarded only by `status == ROHC_STATUS_OK`, so the stale `demuxed_packet`
(the compressed bytes) is written, for each payload of the bundle, instead
of nothing. -/
theorem C6_empty_decompression_still_writes :
    demuxWrites true (fun _ => some []) (serializeBundle [[7, 7, 7], [9]])
      = [[7, 7, 7], [9]] := by decide

/-- C7 counterexample: the claim "a trigger set to any value other than
its sentinel makes `n_max` default to the maximum bundle capacity" is
false: with `size_threshold = 2000` (≠ its sentinel 1472) and timeout and
period at their sentinels, `limit_numpackets_tap` stays 0. -/
theorem C7_counterexample :
    (2000 : Nat) ≠ MAXTHRESHOLD
    ∧ setDefaultLimit 2000 MAXTIMEOUT MAXTIMEOUT 0 = 0 := by decide

/-- C7 (amended): when `n_max` is left unset (0) at startup: it becomes
`MAXPKTS = 100` (which is at least 100) when at least one of
`size_threshold`, `timeout`, `period` is strictly below its sentinel; it
becomes 1 when `size_threshold` and `timeout` both equal their sentinels
(the source's second test checks `timeout` twice and never consults
`period`); otherwise it stays 0. -/
theorem C7_default_limit (size_threshold timeout period : Nat) :
    setDefaultLimit size_threshold timeout period 0
      = (if size_threshold < MAXTHRESHOLD ∨ timeout < MAXTIMEOUT ∨ period < MAXTIMEOUT then
          MAXPKTS
        else if size_threshold = MAXTHRESHOLD ∧ timeout = MAXTIMEOUT then
          1
        else
          0)
    ∧ 100 ≤ MAXPKTS := by
  constructor
  · simp only [setDefaultLimit]
    by_cases h1 : size_threshold < MAXTHRESHOLD ∨ timeout < MAXTIMEOUT ∨ period < MAXTIMEOUT
    · simp [h1, MAXPKTS]
    · by_cases h2 : size_threshold = MAXTHRESHOLD ∧ timeout = MAXTIMEOUT
      · obtain ⟨h2a, h2b⟩ := h2
        subst h2a
        subst h2b
        have hp : ¬ period < MAXTIMEOUT := fun hlt => h1 (Or.inr (Or.inr hlt))
        simp [h1, hp]
      · have h3 : ¬ (size_threshold = MAXTHRESHOLD
            ∧ timeout = MAXTIMEOUT ∧ timeout = MAXTIMEOUT) :=
          fun hx => h2 ⟨hx.1, hx.2.1⟩
        simp [h1, h2, h3]
  · decide

/-- C8: while demultiplexing, a separator whose first byte has bit 7 set
(bad separator), or a decoded payload length that would overrun the
remaining datagram (truncated payload), makes the source discard the
entire remaining bundle: only the packets that preceded the malformed part
are extracted (and the loop simply moves on to the next datagram). -/
theorem C8_malformed_discards_rest (ps : List (List Nat)) (b0 : Nat) (rest : List Nat)
    (n : Nat) (q : List Nat) (hps : ∀ p ∈ ps, p.length ≤ 16383) :
    ((b0 % 256).testBit 7 = true → demux (serializeBundle ps ++ b0 :: rest) = ps)
    ∧ (n ≤ 16383 → q.length < n → demux (serializeBundle ps ++ (encodeSep n ++ q)) = ps) := by
  constructor
  · intro h7
    rw [demux_serializeBundle ps _ hps, demux_badSeparator b0 rest h7]
    simp
  · intro h16 hq
    rw [demux_serializeBundle ps _ hps, demux_truncated n q h16 hq]
    simp

/-- C8 witness: a valid packet `[5]` followed by a bad separator `0x80`,
and a valid packet `[5]` followed by a separator declaring 100 bytes with
only 3 bytes left. -/
theorem C8_malformed_discards_rest_witness :
    demux (serializeBundle [[5]] ++ 128 :: [1, 2]) = [[5]]
    ∧ demux (serializeBundle [[5]] ++ (encodeSep 100 ++ [1, 2, 3])) = [[5]] :=
  ⟨(C8_malformed_discards_rest [[5]] 128 [1, 2] 100 [1, 2, 3] (by decide)).1 (by decide),
   (C8_malformed_discards_rest [[5]] 128 [1, 2] 100 [1, 2, 3] (by decide)).2
     (by decide) (by decide)⟩

/-- C9: a received datagram is demultiplexed iff its source port equals
the configured port; with a different source port the whole datagram is
written verbatim to the virtual interface; and with compression disabled
the demultiplex path writes exactly the parsed payloads. -/
theorem C9_port_routing (compress_headers : Bool) (decomp : List Nat → Option (List Nat))
    (port src_port : Nat) (buffer_from_net : List Nat) :
    (port ≠ src_port →
      handleNetDatagram compress_headers decomp port src_port buffer_from_net
        = [buffer_from_net])
    ∧ (port = src_port →
      handleNetDatagram compress_headers decomp port src_port buffer_from_net
        = demuxWrites compress_headers decomp buffer_from_net)
    ∧ (compress_headers = false →
      demuxWrites compress_headers decomp buffer_from_net = demux buffer_from_net) := by
  refine ⟨?_, ?_, ?_⟩
  · intro h
    simp [handleNetDatagram, h]
  · intro h
    simp [handleNetDatagram, h]
  · intro h
    subst h
    simp only [demuxWrites, processPayload, Bool.false_eq_true, if_false]
    exact filterMap_psome (demux buffer_from_net)

/-- C9 witness: a datagram from port 44444 with configured port 55555
passes through verbatim; with matching ports and compression disabled the
parsed payloads are written. -/
theorem C9_port_routing_witness :
    ((55555 : Nat) ≠ 44444)
    ∧ handleNetDatagram false (fun _ => none) 55555 44444 [9, 9, 9] = [[9, 9, 9]]
    ∧ demuxWrites false (fun _ => none) [1, 7] = demux [1, 7] :=
  ⟨by decide,
   (C9_port_routing false (fun _ => none) 55555 44444 [9, 9, 9]).1 (by decide),
   (C9_port_routing false (fun _ => none) 55555 44444 [1, 7]).2.2 rfl⟩

/-- C10: the demultiplexer can access buffer positions at or beyond the
received datagram length.  In the access-exact embedding, where every read
returns an `Option`, the out-of-range branch (`none`) is reachable: the
datagram `[0x40]` makes the source read the second separator byte at
position 1, past the end; the datagram `[0x02]` declares a 2-byte payload
and the copy loop (which runs before the `position > nread_from_net`
check) reads position 1, past the end. -/
theorem C10_out_of_range_reads :
    demuxStepTotal [64] 0 = none ∧ demuxStepTotal [2] 0 = none := by decide

end Simplemux
